import Mathlib

/-!
The mocks_data API: the `/states` and `/cities/:id` handlers of `routes/cities.js`

A shallow embedding of `src/routes/cities.js`.

* JavaScript values that can sit in a field of a parsed record are `JsVal`.
  JSON numbers are kept by their `Number::toString` rendering, which is all the
  handlers can observe of them (truthiness, use as a property key, `===`).
  Arrays and objects in field position are outside this value model.
* `uniqueStates` is a plain object literal `{}`: an ordered collection of own
  properties whose prototype is `Object.prototype`. Property reads fall back to
  the prototype, and `Object.keys` enumerates array-index keys first.
* `loadStates` is modelled by what happens to its promise: it is fulfilled,
  rejected, or left pending because the `readFile` callback threw.
* A handler run is the list of calls it makes on `res`, `next` and `console`.
-/

namespace MocksData

/-! ## Values -/

/-- JavaScript values reachable by the handlers. `num` carries the canonical
`Number::toString` rendering of a JSON number (`-0` renders as `0`); `builtin`
is the function or object that `Object.prototype` holds under the given name
(it never comes out of `JSON.parse`). -/
inductive JsVal where
  | undefined
  | null
  | bool (b : Bool)
  | num (repr : String)
  | str (s : String)
  | builtin (name : String)
  deriving DecidableEq, Repr

/-- ToBoolean. `JSON.parse` never yields `NaN`, so zero is the only falsy number. -/
def JsVal.truthy : JsVal → Bool
  | .undefined => false
  | .null => false
  | .bool b => b
  | .num r => !(r == "0")
  | .str s => !(s == "")
  | .builtin _ => true

/-- ToPropertyKey, as applied by `uniqueStates[item.state_dane_code]`. The
`builtin` case cannot arise from a parsed record; it is rendered the way the
engine prints a native function. -/
def JsVal.toPropertyKey : JsVal → String
  | .undefined => "undefined"
  | .null => "null"
  | .bool true => "true"
  | .bool false => "false"
  | .num r => r
  | .str s => s
  | .builtin name => "function " ++ name ++ "() \x7b [native code] \x7d"

/-- The operator `===` (no `NaN` among the values, so it is plain equality). -/
def JsVal.strictEq (a b : JsVal) : Bool := decide (a = b)

/-! ## Plain objects -/

/-- The string-keyed properties of `Object.prototype` (ECMAScript, with Annex B).
Every one of them holds a function, except `__proto__`, whose getter returns
`Object.prototype` itself; all are truthy. -/
def objectPrototypeKeys : List String :=
  ["constructor", "__defineGetter__", "__defineSetter__", "hasOwnProperty",
   "__lookupGetter__", "__lookupSetter__", "isPrototypeOf", "propertyIsEnumerable",
   "toString", "valueOf", "__proto__", "toLocaleString"]

/-- An object created by the literal `{}`: its own properties in creation order. -/
abbrev JsObject := List (String × JsVal)

/-- Own property lookup. -/
def JsObject.getOwn (o : JsObject) (k : String) : Option JsVal :=
  match o with
  | [] => none
  | (k', v) :: rest => if k' = k then some v else JsObject.getOwn rest k

/-- The read `o[k]`: own property, else `Object.prototype`, else `undefined`. -/
def JsObject.get (o : JsObject) (k : String) : JsVal :=
  match o.getOwn k with
  | some v => v
  | none => if k ∈ objectPrototypeKeys then .builtin k else .undefined

/-- The write `o[k] = v`: an existing own property keeps its position, a new one
is created after all existing ones. -/
def JsObject.set (o : JsObject) (k : String) (v : JsVal) : JsObject :=
  match o with
  | [] => [(k, v)]
  | (k', v') :: rest => if k' = k then (k', v) :: rest else (k', v') :: JsObject.set rest k v

/-- Numeric value of a string of decimal digits. -/
def digitsValue (cs : List Char) : Nat :=
  cs.foldl (fun n c => 10 * n + (c.toNat - 48)) 0

/-- Numeric value of a property key that is an array index. -/
def indexValue (k : String) : Nat := digitsValue k.data

/-- A property key is an array index when it is the canonical decimal rendering
of an integer in `[0, 2^32 - 2]`. -/
def isArrayIndex (k : String) : Bool :=
  let cs := k.data
  !cs.isEmpty && cs.all (fun c => decide (48 ≤ c.toNat ∧ c.toNat ≤ 57))
    && (decide (cs.head? ≠ some '0') || decide (cs.length = 1))
    && decide (digitsValue cs < 2 ^ 32 - 1)

/-- The ordering used for array-index keys. -/
def indexLe (a b : String) : Prop := indexValue a ≤ indexValue b

instance : DecidableRel indexLe := fun a b => Nat.decLe (indexValue a) (indexValue b)

instance : IsTotal String indexLe := ⟨fun a b => Nat.le_total (indexValue a) (indexValue b)⟩

instance : IsTrans String indexLe := ⟨fun _ _ _ h1 h2 => Nat.le_trans h1 h2⟩

/-- Own keys in creation order. -/
def JsObject.ownKeys (o : JsObject) : List String := o.map Prod.fst

/-- `Object.keys(o)`: array-index keys in ascending numeric order, then the other
string keys in creation order (OrdinaryOwnPropertyKeys). -/
def JsObject.keys (o : JsObject) : List String :=
  (o.ownKeys.filter isArrayIndex).insertionSort indexLe
    ++ o.ownKeys.filter (fun k => !isArrayIndex k)

/-! ## Dataset -/

/-- One object of `municipios.data`, with the four fields the handlers read. A
field that is absent reads as `undefined`. -/
structure CityRecord where
  state_dane_code : JsVal
  state : JsVal
  city_dane_code : JsVal
  city : JsVal
  deriving DecidableEq, Repr

/-- What `JSON.parse` produced, as far as the handlers look at it. An element of
the `data` array is `none` when it is `null` (reading a field of it throws), and
a record otherwise. -/
inductive JsonDoc where
  | withData (items : List (Option CityRecord))
  | noDataArray
  deriving DecidableEq, Repr

/-- Errors that reach the handlers. -/
inductive JsError where
  | ioError (code : String)
  | syntaxError (message : String)
  | typeError (message : String)
  deriving DecidableEq, Repr

/-! ## Loader -/

/-- What `fs.readFile` hands to its callback. -/
inductive ReadResult where
  | error (err : JsError)
  | content (jsonData : String)
  deriving DecidableEq, Repr

/-- The fate of the promise returned by `loadStates`. `uncaught e` means the
`readFile` callback threw `e`: that happens after the promise executor has
returned, so the promise is neither fulfilled nor rejected. -/
inductive LoadOutcome where
  | resolved (doc : JsonDoc)
  | rejected (err : JsError)
  | uncaught (err : JsError)
  deriving DecidableEq, Repr

/-- `loadStates`, given the behaviour of `JSON.parse` and the result of the read. -/
def loadStates (parse : String → Except JsError JsonDoc) (read : ReadResult) : LoadOutcome :=
  match read with
  | .error err => .rejected err
  | .content jsonData =>
    match parse jsonData with
    | .ok doc => .resolved doc
    | .error e => .uncaught e

/-! ## Responses -/

/-- The entry `{id, state}` of the `/states` response. -/
structure StateSummary where
  id : String
  state : JsVal
  deriving DecidableEq, Repr

/-- The entry `{id, city}` of the `/cities/:id` response. -/
structure CitySummary where
  id : JsVal
  city : JsVal
  deriving DecidableEq, Repr

/-- The object passed to `res.json`. -/
structure Envelope (α : Type) where
  status_code : Nat
  message : String
  data : List α
  deriving DecidableEq, Repr

/-- The observable calls a handler makes. -/
inductive Effect (α : Type) where
  | json (body : Envelope α)
  | next (error : JsError)
  | consoleError (label : String) (error : JsError)
  deriving DecidableEq, Repr

/-! ## `GET /states` -/

/-- The callback of `municipios.data.forEach` on a record. -/
def recordState (uniqueStates : JsObject) (item : CityRecord) : JsObject :=
  if !(uniqueStates.get item.state_dane_code.toPropertyKey).truthy then
    uniqueStates.set item.state_dane_code.toPropertyKey item.state
  else
    uniqueStates

/-- The `forEach` loop over `municipios.data`; a `null` element throws. -/
def collectStates : List (Option CityRecord) → JsObject → Except JsError JsObject
  | [], uniqueStates => .ok uniqueStates
  | none :: _, _ => .error (.typeError "Cannot read properties of null")
  | some item :: rest, uniqueStates => collectStates rest (recordState uniqueStates item)

/-- The expression `Object.keys(uniqueStates).map(...)`. -/
def statesOf (uniqueStates : JsObject) : List StateSummary :=
  uniqueStates.keys.map (fun stateCode => { id := stateCode, state := uniqueStates.get stateCode })

/-- The body of the `try` block of the `/states` handler after the `await`. -/
def statesBody (municipios : JsonDoc) : Except JsError (List StateSummary) :=
  match municipios with
  | .noDataArray => .error (.typeError "Cannot read properties of undefined")
  | .withData items =>
    match collectStates items [] with
    | .ok uniqueStates => .ok (statesOf uniqueStates)
    | .error e => .error e

/-- The `/states` handler. While the promise stays pending nothing is called. -/
def statesHandler (load : LoadOutcome) : List (Effect StateSummary) :=
  match load with
  | .uncaught _ => []
  | .rejected error => [.consoleError "Error loading states:" error, .next error]
  | .resolved municipios =>
    match statesBody municipios with
    | .ok states => [.json { status_code := 200, message := "success", data := states }]
    | .error error => [.consoleError "Error loading states:" error, .next error]

/-! ## `GET /cities/:id` -/

/-- The `filter(...).map(...)` chain over `municipios.data`; a `null` element throws. -/
def filterCities : List (Option CityRecord) → String → Except JsError (List CitySummary)
  | [], _ => .ok []
  | none :: _, _ => .error (.typeError "Cannot read properties of null")
  | some item :: rest, stateId =>
    match filterCities rest stateId with
    | .error e => .error e
    | .ok cities =>
      if item.state_dane_code.strictEq (.str stateId) then
        .ok ({ id := item.city_dane_code, city := item.city } :: cities)
      else
        .ok cities

/-- The body of the `try` block of the `/cities/:id` handler after the `await`. -/
def citiesBody (municipios : JsonDoc) (stateId : String) : Except JsError (List CitySummary) :=
  match municipios with
  | .noDataArray => .error (.typeError "Cannot read properties of undefined")
  | .withData items => filterCities items stateId

/-- The `/cities/:id` handler, `stateId` being `req.params.id`. -/
def citiesHandler (load : LoadOutcome) (stateId : String) : List (Effect CitySummary) :=
  match load with
  | .uncaught _ => []
  | .rejected error => [.next error]
  | .resolved municipios =>
    match citiesBody municipios stateId with
    | .ok cities => [.json { status_code := 200, message := "success", data := cities }]
    | .error error => [.next error]

/-! ## Derived views on lists of records -/

/-- The states derived from a list of records (no `null` element). -/
def listStates (records : List CityRecord) : List StateSummary :=
  statesOf (records.foldl recordState [])

/-- The cities derived from a list of records for a state identifier. -/
def listCities (records : List CityRecord) (stateId : String) : List CitySummary :=
  (records.filter (fun item => item.state_dane_code.strictEq (.str stateId))).map
    (fun item => { id := item.city_dane_code, city := item.city })

/-- The record has a non-empty string `state_dane_code` and a string `state`. -/
def CityRecord.wellFormed (r : CityRecord) : Bool :=
  match r.state_dane_code, r.state with
  | .str c, .str _ => !(c == "")
  | _, _ => false

/-- Every record has a non-empty string `state_dane_code` and a string `state`. -/
def WellFormed (records : List CityRecord) : Prop :=
  ∀ r ∈ records, r.wellFormed = true

instance (records : List CityRecord) : Decidable (WellFormed records) :=
  inferInstanceAs (Decidable (∀ r ∈ records, r.wellFormed = true))

/-- Every record has a string `state_dane_code`. -/
def StringCodes (records : List CityRecord) : Prop :=
  ∀ r ∈ records, ∃ c, r.state_dane_code = .str c

/-- A record with string fields. -/
def mkRecord (stateCode state cityCode city : String) : CityRecord :=
  { state_dane_code := .str stateCode, state := .str state,
    city_dane_code := .str cityCode, city := .str city }

/-- A stand-in for `JSON.parse` that knows one file: `text` parses to `doc`, any
other content is rejected with a `SyntaxError`. -/
def parseOf (text : String) (doc : JsonDoc) : String → Except JsError JsonDoc :=
  fun jsonData => if jsonData = text then .ok doc else .error (.syntaxError "Unexpected token")

/-- The dataset of the scenario: two cities of one state. -/
def scenarioRecords : List CityRecord :=
  [mkRecord "05" "Antioquia" "05001" "Medellín", mkRecord "05" "Antioquia" "05002" "Abejorral"]

/-- A dataset whose codes mix array indices (`11`, `13`) with other strings (`05`, `08`). -/
def mixedRecords : List CityRecord :=
  [mkRecord "05" "Antioquia" "05001" "Medellín", mkRecord "11" "Bogotá" "11001" "Bogotá",
   mkRecord "08" "Atlántico" "08001" "Barranquilla", mkRecord "13" "Bolívar" "13001" "Cartagena",
   mkRecord "11" "Bogotá" "11002" "Usme"]

/-- A dataset with one record filed under a name that `Object.prototype` defines. -/
def shadowedRecords : List CityRecord :=
  [mkRecord "05" "Antioquia" "05001" "Medellín", mkRecord "constructor" "Edge" "c001" "Edgetown"]

/-- A dataset whose first record for `05` has an empty state name. -/
def blankNameRecords : List CityRecord :=
  [mkRecord "05" "" "05001" "Medellín", mkRecord "05" "Antioquia" "05002" "Abejorral"]

/-- The parser for a file whose text `cities.json` holds the given records. -/
def parseRecords (records : List CityRecord) : String → Except JsError JsonDoc :=
  parseOf "cities.json" (.withData (records.map some))

/-- The errors passed to `next` during a run. -/
def nextCalls {α : Type} : List (Effect α) → List JsError
  | [] => []
  | .next e :: rest => e :: nextCalls rest
  | _ :: rest => nextCalls rest

/-- The bodies passed to `res.json` during a run. -/
def jsonCalls {α : Type} : List (Effect α) → List (Envelope α)
  | [] => []
  | .json body :: rest => body :: jsonCalls rest
  | _ :: rest => jsonCalls rest

/-- Position in the dataset of the first record whose `state_dane_code` is the
string `code` (the length of the dataset when there is none). -/
def firstOccurrence (records : List CityRecord) (code : String) : Nat :=
  List.indexOf (JsVal.str code) (records.map (fun r => r.state_dane_code))

/-- Position in a `/states` data array of the first entry whose `id` is `id` (the
length of the array when there is none). -/
def position (states : List StateSummary) (id : String) : Nat :=
  List.indexOf id (states.map (fun e => e.id))

/-- The property keys under which the records are filed, in dataset order. -/
def stateKeys (records : List CityRecord) : List String :=
  records.map (fun r => r.state_dane_code.toPropertyKey)

/-! ## Own properties: reads, writes and key order -/

theorem getOwn_eq_none_iff (o : JsObject) (k : String) :
    o.getOwn k = none ↔ k ∉ o.ownKeys := by
  induction o with
  | nil => simp [JsObject.getOwn, JsObject.ownKeys]
  | cons p rest ih =>
    obtain ⟨k', v⟩ := p
    by_cases h : k' = k
    · simp [JsObject.getOwn, JsObject.ownKeys, h]
    · have h' : ¬ k = k' := fun e => h e.symm
      simpa [JsObject.getOwn, JsObject.ownKeys, h, h'] using ih

theorem ownKeys_set (o : JsObject) (k : String) (v : JsVal) :
    (o.set k v).ownKeys = if k ∈ o.ownKeys then o.ownKeys else o.ownKeys ++ [k] := by
  induction o with
  | nil => simp [JsObject.set, JsObject.ownKeys]
  | cons p rest ih =>
    obtain ⟨k', v'⟩ := p
    by_cases h : k' = k
    · simp [JsObject.set, JsObject.ownKeys, h]
    · have h' : ¬ k = k' := fun e => h e.symm
      simp only [JsObject.ownKeys] at ih
      by_cases hm : k ∈ List.map Prod.fst rest
      · simp [JsObject.set, JsObject.ownKeys, h, h', hm, ih]
      · simp [JsObject.set, JsObject.ownKeys, h, h', hm, ih]

theorem getOwn_set (o : JsObject) (k k' : String) (v : JsVal) :
    (o.set k v).getOwn k' = if k = k' then some v else o.getOwn k' := by
  induction o with
  | nil => simp [JsObject.set, JsObject.getOwn]
  | cons p rest ih =>
    obtain ⟨k0, v0⟩ := p
    by_cases h : k0 = k
    · subst h
      by_cases h2 : k0 = k'
      · simp [JsObject.set, JsObject.getOwn, h2]
      · simp [JsObject.set, JsObject.getOwn, h2]
    · by_cases h2 : k0 = k'
      · subst h2
        have h' : ¬ k = k0 := fun e => h e.symm
        simp [JsObject.set, JsObject.getOwn, h, h']
      · simp [JsObject.set, JsObject.getOwn, h, h2, ih]

theorem getOwn_mem (o : JsObject) (k : String) (v : JsVal) (h : o.getOwn k = some v) :
    (k, v) ∈ o := by
  induction o with
  | nil => simp [JsObject.getOwn] at h
  | cons p rest ih =>
    obtain ⟨k', v'⟩ := p
    by_cases hk : k' = k
    · simp [JsObject.getOwn, hk] at h
      simp [hk, h]
    · simp [JsObject.getOwn, hk] at h
      exact List.mem_cons_of_mem _ (ih h)

/-- Key order after one step of the loop: a key is appended exactly when it is
neither an own key nor a property of `Object.prototype`. -/
theorem ownKeys_recordState (o : JsObject) (r : CityRecord) :
    (recordState o r).ownKeys =
      if r.state_dane_code.toPropertyKey ∈ o.ownKeys
          ∨ r.state_dane_code.toPropertyKey ∈ objectPrototypeKeys
      then o.ownKeys else o.ownKeys ++ [r.state_dane_code.toPropertyKey] := by
  unfold recordState
  generalize r.state_dane_code.toPropertyKey = k
  by_cases hown : k ∈ o.ownKeys
  · by_cases ht : (o.get k).truthy <;> simp [ht, hown, ownKeys_set]
  · have hnone : o.getOwn k = none := (getOwn_eq_none_iff o k).2 hown
    by_cases hp : k ∈ objectPrototypeKeys
    · simp [JsObject.get, hnone, hp, JsVal.truthy, hown]
    · simp [JsObject.get, hnone, hp, JsVal.truthy, hown, ownKeys_set]

theorem mem_set (o : JsObject) (k : String) (v : JsVal) (p : String × JsVal)
    (h : p ∈ o.set k v) : p = (k, v) ∨ p ∈ o := by
  induction o with
  | nil => simpa [JsObject.set] using h
  | cons q rest ih =>
    obtain ⟨k', v'⟩ := q
    by_cases hk : k' = k
    · simp [JsObject.set, hk] at h
      rcases h with h | h
      · exact Or.inl h
      · exact Or.inr (List.mem_cons_of_mem _ h)
    · simp [JsObject.set, hk] at h
      rcases h with h | h
      · exact Or.inr (by simp [h])
      · rcases ih h with h | h
        · exact Or.inl h
        · exact Or.inr (List.mem_cons_of_mem _ h)

theorem mem_recordState (o : JsObject) (r : CityRecord) (p : String × JsVal)
    (h : p ∈ recordState o r) :
    p = (r.state_dane_code.toPropertyKey, r.state) ∨ p ∈ o := by
  unfold recordState at h
  split at h
  · exact mem_set o _ _ p h
  · exact Or.inr h

/-! ## The loops over a list of records -/

theorem collectStates_records (records : List CityRecord) (o : JsObject) :
    collectStates (records.map some) o = .ok (records.foldl recordState o) := by
  induction records generalizing o with
  | nil => rfl
  | cons r rest ih => simp [collectStates, ih]

theorem filterCities_records (records : List CityRecord) (stateId : String) :
    filterCities (records.map some) stateId = .ok (listCities records stateId) := by
  induction records with
  | nil => rfl
  | cons r rest ih =>
    by_cases h : r.state_dane_code.strictEq (.str stateId) = true
    · simp [filterCities, ih, listCities, h]
    · simp [filterCities, ih, listCities, h]

theorem statesHandler_records (records : List CityRecord) :
    statesHandler (.resolved (.withData (records.map some)))
      = [.json { status_code := 200, message := "success", data := listStates records }] := by
  simp [statesHandler, statesBody, collectStates_records, listStates]

theorem citiesHandler_records (records : List CityRecord) (stateId : String) :
    citiesHandler (.resolved (.withData (records.map some))) stateId
      = [.json { status_code := 200, message := "success",
                 data := listCities records stateId }] := by
  simp [citiesHandler, citiesBody, filterCities_records]

/-! ## Own keys after the loop -/

theorem mem_ownKeys_foldl (records : List CityRecord) (o : JsObject) (k : String) :
    k ∈ (records.foldl recordState o).ownKeys ↔
      k ∈ o.ownKeys ∨ (k ∈ stateKeys records ∧ k ∉ objectPrototypeKeys) := by
  induction records generalizing o with
  | nil => simp [stateKeys]
  | cons r rest ih =>
    rw [List.foldl_cons, ih, ownKeys_recordState]
    simp only [stateKeys, List.map_cons, List.mem_cons] at *
    by_cases hc : r.state_dane_code.toPropertyKey ∈ o.ownKeys
        ∨ r.state_dane_code.toPropertyKey ∈ objectPrototypeKeys
    · rw [if_pos hc]
      constructor
      · rintro (h | ⟨h, hp⟩)
        · exact Or.inl h
        · exact Or.inr ⟨Or.inr h, hp⟩
      · rintro (h | ⟨h | h, hp⟩)
        · exact Or.inl h
        · subst h
          rcases hc with hc | hc
          · exact Or.inl hc
          · exact absurd hc hp
        · exact Or.inr ⟨h, hp⟩
    · rw [if_neg hc]
      push_neg at hc
      constructor
      · rintro (h | ⟨h, hp⟩)
        · rcases List.mem_append.1 h with h | h
          · exact Or.inl h
          · have hk : k = r.state_dane_code.toPropertyKey := by simpa using h
            exact Or.inr ⟨Or.inl hk, hk ▸ hc.2⟩
        · exact Or.inr ⟨Or.inr h, hp⟩
      · rintro (h | ⟨h | h, hp⟩)
        · exact Or.inl (List.mem_append_left _ h)
        · exact Or.inl (List.mem_append_right _ (by simp [h]))
        · exact Or.inr ⟨h, hp⟩

theorem nodup_ownKeys_foldl (records : List CityRecord) (o : JsObject)
    (h : o.ownKeys.Nodup) : (records.foldl recordState o).ownKeys.Nodup := by
  induction records generalizing o with
  | nil => simpa using h
  | cons r rest ih =>
    rw [List.foldl_cons]
    apply ih
    rw [ownKeys_recordState]
    by_cases hc : r.state_dane_code.toPropertyKey ∈ o.ownKeys
        ∨ r.state_dane_code.toPropertyKey ∈ objectPrototypeKeys
    · rw [if_pos hc]; exact h
    · rw [if_neg hc]
      push_neg at hc
      rw [List.nodup_append]
      refine ⟨h, List.nodup_singleton _, ?_⟩
      intro a ha hb
      have : a = r.state_dane_code.toPropertyKey := by simpa using hb
      exact hc.1 (this ▸ ha)

theorem mem_foldl_recordState (records : List CityRecord) (o : JsObject)
    (p : String × JsVal) (h : p ∈ records.foldl recordState o) :
    p ∈ o ∨ ∃ r ∈ records, r.state_dane_code.toPropertyKey = p.1 ∧ r.state = p.2 := by
  induction records generalizing o with
  | nil => exact Or.inl (by simpa using h)
  | cons r rest ih =>
    rw [List.foldl_cons] at h
    rcases ih _ h with h | ⟨r', hr', hk, hv⟩
    · rcases mem_recordState o r p h with h | h
      · exact Or.inr ⟨r, by simp, by simp [h], by simp [h]⟩
      · exact Or.inl h
    · exact Or.inr ⟨r', List.mem_cons_of_mem _ hr', hk, hv⟩

/-! ## `Object.keys` -/

theorem mem_keys (o : JsObject) (k : String) : k ∈ o.keys ↔ k ∈ o.ownKeys := by
  unfold JsObject.keys
  rw [List.mem_append, List.mem_insertionSort, List.mem_filter, List.mem_filter]
  by_cases h : isArrayIndex k = true <;> simp [h]

theorem nodup_keys (o : JsObject) (h : o.ownKeys.Nodup) : o.keys.Nodup := by
  unfold JsObject.keys
  rw [List.nodup_append]
  refine ⟨?_, h.filter _, ?_⟩
  · exact ((List.perm_insertionSort indexLe _).nodup_iff).2 (h.filter _)
  · intro a ha hb
    rw [List.mem_insertionSort, List.mem_filter] at ha
    rw [List.mem_filter] at hb
    simp [ha.2] at hb

/-! ## Order of the keys -/

theorem indexOf_skip (acc rest : List String) (k x : String) (h : x ≠ k ∨ k ∈ acc) :
    (x ∈ acc ∧ List.indexOf x (acc ++ k :: rest) = List.indexOf x acc
        ∧ List.indexOf x (acc ++ rest) = List.indexOf x acc)
    ∨ (x ∉ acc ∧ List.indexOf x (acc ++ k :: rest) = acc.length + (List.indexOf x rest + 1)
        ∧ List.indexOf x (acc ++ rest) = acc.length + List.indexOf x rest) := by
  by_cases hx : x ∈ acc
  · exact Or.inl ⟨hx, List.indexOf_append_of_mem hx, List.indexOf_append_of_mem hx⟩
  · have hne : k ≠ x := by
      rcases h with h | h
      · exact fun e => h e.symm
      · exact fun e => hx (e ▸ h)
    refine Or.inr ⟨hx, ?_, List.indexOf_append_of_not_mem hx⟩
    rw [List.indexOf_append_of_not_mem hx, List.indexOf_cons_ne _ hne]

theorem indexOf_filter_lt (p : String → Bool) (l : List String) (a b : String)
    (ha : p a = true) (hb : p b = true) (hmem : a ∈ l)
    (h : List.indexOf a l < List.indexOf b l) :
    List.indexOf a (l.filter p) < List.indexOf b (l.filter p) := by
  induction l with
  | nil => simp at hmem
  | cons x xs ih =>
    by_cases hxa : x = a
    · subst hxa
      have hxb : x ≠ b := by
        intro e
        subst e
        exact absurd h (lt_irrefl _)
      rw [List.filter_cons_of_pos ha, List.indexOf_cons_self, List.indexOf_cons_ne _ hxb]
      exact Nat.succ_pos _
    · have hxb : x ≠ b := by
        intro e
        subst e
        rw [List.indexOf_cons_self] at h
        exact absurd h (Nat.not_lt_zero _)
      rw [List.indexOf_cons_ne _ hxa, List.indexOf_cons_ne _ hxb] at h
      have hmem' : a ∈ xs := by
        rcases List.mem_cons.1 hmem with e | e
        · exact absurd e.symm hxa
        · exact e
      have := ih hmem' (Nat.lt_of_succ_lt_succ h)
      by_cases hpx : p x = true
      · rw [List.filter_cons_of_pos hpx, List.indexOf_cons_ne _ hxa, List.indexOf_cons_ne _ hxb]
        exact Nat.succ_lt_succ this
      · rw [List.filter_cons_of_neg hpx]
        exact this

theorem rel_of_indexOf_lt (l : List String) (hs : l.Pairwise indexLe) (a b : String)
    (ha : a ∈ l) (h : List.indexOf b l < List.indexOf a l) : indexLe b a := by
  induction l with
  | nil => simp at ha
  | cons x xs ih =>
    rw [List.pairwise_cons] at hs
    by_cases hxb : x = b
    · subst hxb
      have hxa : x ≠ a := by
        intro e
        subst e
        exact absurd h (lt_irrefl _)
      rcases List.mem_cons.1 ha with e | e
      · exact absurd e.symm hxa
      · exact hs.1 a e
    · have hxa : x ≠ a := by
        intro e
        subst e
        rw [List.indexOf_cons_self] at h
        exact absurd h (Nat.not_lt_zero _)
      rw [List.indexOf_cons_ne _ hxa, List.indexOf_cons_ne _ hxb] at h
      rcases List.mem_cons.1 ha with e | e
      · exact absurd e.symm hxa
      · exact ih hs.2 e (Nat.lt_of_succ_lt_succ h)

theorem not_proto_ownKeys_foldl (records : List CityRecord) (o : JsObject)
    (ho : ∀ k ∈ o.ownKeys, k ∉ objectPrototypeKeys) :
    ∀ k ∈ (records.foldl recordState o).ownKeys, k ∉ objectPrototypeKeys := by
  intro k hk
  rcases (mem_ownKeys_foldl records o k).1 hk with h | h
  · exact ho k h
  · exact h.2

/-- Creation order follows first occurrence among the keys filed. -/
theorem indexOf_ownKeys_foldl (records : List CityRecord) (o : JsObject)
    (ho : ∀ k ∈ o.ownKeys, k ∉ objectPrototypeKeys) (a b : String)
    (ha : a ∈ (records.foldl recordState o).ownKeys)
    (hb : b ∈ (records.foldl recordState o).ownKeys)
    (h : List.indexOf a (o.ownKeys ++ stateKeys records)
          < List.indexOf b (o.ownKeys ++ stateKeys records)) :
    List.indexOf a (records.foldl recordState o).ownKeys
      < List.indexOf b (records.foldl recordState o).ownKeys := by
  induction records generalizing o with
  | nil => simpa [stateKeys] using h
  | cons r rest ih =>
    rw [List.foldl_cons] at ha hb ⊢
    have ho' : ∀ k ∈ (recordState o r).ownKeys, k ∉ objectPrototypeKeys := by
      have := not_proto_ownKeys_foldl [r] o ho
      simpa using this
    apply ih (recordState o r) ho' ha hb
    have hpa := not_proto_ownKeys_foldl rest _ ho' a ha
    have hpb := not_proto_ownKeys_foldl rest _ ho' b hb
    simp only [stateKeys, List.map_cons] at h ⊢
    rw [ownKeys_recordState]
    by_cases hc : r.state_dane_code.toPropertyKey ∈ o.ownKeys
        ∨ r.state_dane_code.toPropertyKey ∈ objectPrototypeKeys
    · rw [if_pos hc]
      have hka : a ≠ r.state_dane_code.toPropertyKey ∨ r.state_dane_code.toPropertyKey ∈ o.ownKeys := by
        rcases hc with hc | hc
        · exact Or.inr hc
        · exact Or.inl (fun e => hpa (e ▸ hc))
      have hkb : b ≠ r.state_dane_code.toPropertyKey ∨ r.state_dane_code.toPropertyKey ∈ o.ownKeys := by
        rcases hc with hc | hc
        · exact Or.inr hc
        · exact Or.inl (fun e => hpb (e ▸ hc))
      have hla := @List.indexOf_lt_length _ _ a o.ownKeys
      have hlb := @List.indexOf_lt_length _ _ b o.ownKeys
      rcases indexOf_skip o.ownKeys (List.map (fun r => r.state_dane_code.toPropertyKey) rest)
          _ a hka with ⟨ha1, ha2, ha3⟩ | ⟨ha1, ha2, ha3⟩ <;>
        rcases indexOf_skip o.ownKeys (List.map (fun r => r.state_dane_code.toPropertyKey) rest)
          _ b hkb with ⟨hb1, hb2, hb3⟩ | ⟨hb1, hb2, hb3⟩
      · rw [ha3, hb3]; rw [ha2, hb2] at h; exact h
      · rw [ha3, hb3]; have := hla.2 ha1; omega
      · rw [ha2, hb2] at h; have := hlb.2 hb1; omega
      · rw [ha3, hb3]; rw [ha2, hb2] at h; omega
    · rw [if_neg hc]
      simpa [List.append_assoc] using h

theorem map_id_statesOf (o : JsObject) : (statesOf o).map (fun e => e.id) = o.keys := by
  simp [statesOf, Function.comp_def]

theorem wellFormed_fields (r : CityRecord) (h : r.wellFormed = true) :
    ∃ c s, r.state_dane_code = .str c ∧ c ≠ "" ∧ r.state = .str s := by
  obtain ⟨code, st, cc, ct⟩ := r
  cases code <;> cases st <;> simp [CityRecord.wellFormed] at h
  exact ⟨_, _, rfl, h, rfl⟩

theorem stringCodes_of_wellFormed (records : List CityRecord) (h : WellFormed records) :
    StringCodes records := by
  intro r hr
  obtain ⟨c, _, hc, _, _⟩ := wellFormed_fields r (h r hr)
  exact ⟨c, hc⟩

theorem firstOccurrence_eq (records : List CityRecord) (h : StringCodes records) (c : String) :
    firstOccurrence records c = List.indexOf c (stateKeys records) := by
  induction records with
  | nil => rfl
  | cons r rest ih =>
    have hrest : StringCodes rest := fun x hx => h x (List.mem_cons_of_mem _ hx)
    obtain ⟨c', hc'⟩ := h r (List.mem_cons_self _ _)
    have ih' := ih hrest
    simp only [firstOccurrence, stateKeys, List.map_cons] at ih' ⊢
    rw [hc']
    by_cases e : c' = c
    · subst e
      simp [JsVal.toPropertyKey]
    · have e' : JsVal.str c' ≠ JsVal.str c := fun x => e (JsVal.str.inj x)
      rw [List.indexOf_cons_ne _ e', List.indexOf_cons_ne _ (by simpa [JsVal.toPropertyKey] using e), ih']

theorem mem_stateKeys (records : List CityRecord) (h : StringCodes records) (c : String) :
    c ∈ stateKeys records ↔ ∃ r ∈ records, r.state_dane_code = .str c := by
  simp only [stateKeys, List.mem_map]
  constructor
  · rintro ⟨r, hr, hk⟩
    obtain ⟨c', hc'⟩ := h r hr
    rw [hc'] at hk
    exact ⟨r, hr, by rw [hc']; simpa [JsVal.toPropertyKey] using hk⟩
  · rintro ⟨r, hr, hk⟩
    exact ⟨r, hr, by rw [hk]; rfl⟩

/-- The ids listed are the keys filed that `Object.prototype` does not shadow. -/
theorem mem_listStates_ids (records : List CityRecord) (k : String) :
    k ∈ (listStates records).map (fun e => e.id) ↔
      k ∈ stateKeys records ∧ k ∉ objectPrototypeKeys := by
  rw [listStates, map_id_statesOf, mem_keys, mem_ownKeys_foldl]
  simp [JsObject.ownKeys]

/-- No id is listed twice. -/
theorem nodup_listStates_ids (records : List CityRecord) :
    ((listStates records).map (fun e => e.id)).Nodup := by
  rw [listStates, map_id_statesOf]
  exact nodup_keys _ (nodup_ownKeys_foldl records [] (by simp [JsObject.ownKeys]))

/-- Every entry listed carries the key and the `state` of some record. -/
theorem listStates_entry (records : List CityRecord) (e : StateSummary)
    (he : e ∈ listStates records) :
    ∃ r ∈ records, r.state_dane_code.toPropertyKey = e.id ∧ r.state = e.state := by
  simp only [listStates, statesOf, List.mem_map] at he
  obtain ⟨k, hk, rfl⟩ := he
  rw [mem_keys] at hk
  cases hget : (List.foldl recordState [] records).getOwn k with
  | none => exact absurd hk ((getOwn_eq_none_iff _ k).1 hget)
  | some v =>
    have hmem := getOwn_mem _ k v hget
    rcases mem_foldl_recordState records [] (k, v) hmem with h | ⟨r, hr, h1, h2⟩
    · simp at h
    · exact ⟨r, hr, h1, by simp [JsObject.get, hget, h2]⟩

/-- Position in `Object.keys` of the listed ids. -/
theorem position_cases (records : List CityRecord) (a b : String)
    (ha : a ∈ (listStates records).map (fun e => e.id))
    (hb : b ∈ (listStates records).map (fun e => e.id)) :
    (isArrayIndex a = false → isArrayIndex b = false →
        List.indexOf a (stateKeys records) < List.indexOf b (stateKeys records) →
        position (listStates records) a < position (listStates records) b)
    ∧ (isArrayIndex a = true → isArrayIndex b = true → indexValue a < indexValue b →
        position (listStates records) a < position (listStates records) b)
    ∧ (isArrayIndex a = true → isArrayIndex b = false →
        position (listStates records) a < position (listStates records) b) := by
  unfold position
  rw [listStates, map_id_statesOf] at ha hb ⊢
  rw [mem_keys] at ha hb
  set o := List.foldl recordState [] records with ho
  have hsorted : ((o.ownKeys.filter isArrayIndex).insertionSort indexLe).Pairwise indexLe :=
    List.sorted_insertionSort indexLe _
  have hmemS : ∀ k, k ∈ (o.ownKeys.filter isArrayIndex).insertionSort indexLe ↔
      k ∈ o.ownKeys ∧ isArrayIndex k = true := by
    intro k
    rw [List.mem_insertionSort, List.mem_filter]
  refine ⟨?_, ?_, ?_⟩
  · intro hia hib hlt
    have haS : a ∉ (o.ownKeys.filter isArrayIndex).insertionSort indexLe := by
      rw [hmemS]; simp [hia]
    have hbS : b ∉ (o.ownKeys.filter isArrayIndex).insertionSort indexLe := by
      rw [hmemS]; simp [hib]
    unfold JsObject.keys
    rw [List.indexOf_append_of_not_mem haS, List.indexOf_append_of_not_mem hbS]
    have hk := indexOf_ownKeys_foldl records [] (by simp [JsObject.ownKeys]) a b ha hb
      (by simpa [JsObject.ownKeys] using hlt)
    have := indexOf_filter_lt (fun k => !isArrayIndex k) o.ownKeys a b (by simp [hia])
      (by simp [hib]) ha hk
    omega
  · intro hia hib hlt
    have haS : a ∈ (o.ownKeys.filter isArrayIndex).insertionSort indexLe :=
      (hmemS a).2 ⟨ha, hia⟩
    have hbS : b ∈ (o.ownKeys.filter isArrayIndex).insertionSort indexLe :=
      (hmemS b).2 ⟨hb, hib⟩
    unfold JsObject.keys
    rw [List.indexOf_append_of_mem haS, List.indexOf_append_of_mem hbS]
    by_contra hcon
    rcases Nat.lt_or_eq_of_le (not_lt.1 hcon) with h | h
    · have := rel_of_indexOf_lt _ hsorted a b haS h
      unfold indexLe at this
      omega
    · have := (List.indexOf_inj hbS haS).1 h
      subst this
      exact absurd hlt (lt_irrefl _)
  · intro hia hib
    have haS : a ∈ (o.ownKeys.filter isArrayIndex).insertionSort indexLe :=
      (hmemS a).2 ⟨ha, hia⟩
    have hbS : b ∉ (o.ownKeys.filter isArrayIndex).insertionSort indexLe := by
      rw [hmemS]; simp [hib]
    unfold JsObject.keys
    rw [List.indexOf_append_of_mem haS, List.indexOf_append_of_not_mem hbS]
    have := List.indexOf_lt_length.2 haS
    omega

/-- Every id listed by `/states` has at least one city. -/
theorem listed_state_has_cities (records : List CityRecord) (h : StringCodes records)
    (e : StateSummary) (he : e ∈ listStates records) : listCities records e.id ≠ [] := by
  obtain ⟨r, hr, hk, _⟩ := listStates_entry records e he
  obtain ⟨c, hc⟩ := h r hr
  have hid : r.state_dane_code = .str e.id := by
    rw [hc] at hk
    rw [hc, ← hk]
    rfl
  intro hnil
  have hmem : ({ id := r.city_dane_code, city := r.city } : CitySummary)
      ∈ listCities records e.id := by
    simp only [listCities, List.mem_map, List.mem_filter]
    exact ⟨r, ⟨hr, by simp [JsVal.strictEq, hid]⟩, rfl⟩
  rw [hnil] at hmem
  exact absurd hmem (List.not_mem_nil _)

/-- A `/cities/:id` success response only follows a load that produced a data
array of records, and carries their filtered list. -/
theorem citiesHandler_json (load : LoadOutcome) (stateId : String) (body : Envelope CitySummary)
    (h : Effect.json body ∈ citiesHandler load stateId) :
    ∃ items cities, load = .resolved (.withData items)
      ∧ filterCities items stateId = .ok cities
      ∧ body = { status_code := 200, message := "success", data := cities } := by
  cases load with
  | uncaught e => simp [citiesHandler] at h
  | rejected e => simp [citiesHandler] at h
  | resolved doc =>
    cases doc with
    | noDataArray => simp [citiesHandler, citiesBody] at h
    | withData items =>
      cases hf : filterCities items stateId with
      | error e => simp [citiesHandler, citiesBody, hf] at h
      | ok cities =>
        simp [citiesHandler, citiesBody, hf] at h
        exact ⟨items, cities, rfl, hf, h⟩

/-! ## The claims -/

/-- C1 (the code at a failing input): the dataset is well formed and has a record
whose `state_dane_code` is `constructor`, yet the data array of the `/states`
success response has no entry with that id: the read `uniqueStates["constructor"]`
finds the function inherited from `Object.prototype`, which is truthy, so the
code is never filed. -/
theorem states_omits_shadowed_code :
    WellFormed shadowedRecords
    ∧ (∃ r ∈ shadowedRecords, r.state_dane_code = .str "constructor")
    ∧ statesHandler (loadStates (parseRecords shadowedRecords) (.content "cities.json"))
        = [.json { status_code := 200, message := "success",
                   data := [{ id := "05", state := .str "Antioquia" }] }] := by
  refine ⟨by decide, ⟨mkRecord "constructor" "Edge" "c001" "Edgetown", ?_, rfl⟩, by decide⟩
  simp [shadowedRecords]

/-- C2 (as stated, refuted): in a well-formed dataset `05` first occurs before
`11`, both are listed by `/states`, and the entry `11` comes first. -/
theorem states_order_counterexample :
    WellFormed mixedRecords
    ∧ firstOccurrence mixedRecords "05" < firstOccurrence mixedRecords "11"
    ∧ (listStates mixedRecords).map (fun e => e.id) = ["11", "13", "05", "08"]
    ∧ ¬ position (listStates mixedRecords) "05" < position (listStates mixedRecords) "11" := by
  decide

/-- C2 (amended): for every well-formed dataset and ids `a`, `b` listed by
`/states`: if neither is an array index and `a` first occurs before `b` in the
dataset, the entry `a` precedes the entry `b`; if both are array indices and `a`
is numerically smaller, the entry `a` precedes the entry `b`; and an array-index
id precedes every id that is not an array index. -/
theorem states_order (records : List CityRecord) (hwf : WellFormed records) (a b : String)
    (ha : a ∈ (listStates records).map (fun e => e.id))
    (hb : b ∈ (listStates records).map (fun e => e.id)) :
    (isArrayIndex a = false → isArrayIndex b = false →
        firstOccurrence records a < firstOccurrence records b →
        position (listStates records) a < position (listStates records) b)
    ∧ (isArrayIndex a = true → isArrayIndex b = true → indexValue a < indexValue b →
        position (listStates records) a < position (listStates records) b)
    ∧ (isArrayIndex a = true → isArrayIndex b = false →
        position (listStates records) a < position (listStates records) b) := by
  have hs := stringCodes_of_wellFormed records hwf
  rw [firstOccurrence_eq records hs a, firstOccurrence_eq records hs b]
  exact position_cases records a b ha hb

/-- The order theorem of C2 applied to the mixed dataset: `05` before `08`, `11`
before `13`, and `13` before `05`. -/
theorem states_order_witness :
    WellFormed mixedRecords
    ∧ position (listStates mixedRecords) "05" < position (listStates mixedRecords) "08"
    ∧ position (listStates mixedRecords) "11" < position (listStates mixedRecords) "13"
    ∧ position (listStates mixedRecords) "13" < position (listStates mixedRecords) "05" :=
  ⟨by decide,
   (states_order mixedRecords (by decide) "05" "08" (by decide) (by decide)).1
     (by decide) (by decide) (by decide),
   (states_order mixedRecords (by decide) "11" "13" (by decide) (by decide)).2.1
     (by decide) (by decide) (by decide),
   (states_order mixedRecords (by decide) "13" "05" (by decide) (by decide)).2.2
     (by decide) (by decide)⟩

/-- C3 (the code at a failing input): the dataset is well formed, its first
record with code `05` has the empty string as `state`, and the `/states` entry
for `05` carries the name of the second record: the guard tests the stored name
for truthiness, so an empty name is overwritten. -/
theorem states_overwrites_blank_name :
    WellFormed blankNameRecords
    ∧ (blankNameRecords.find? (fun r => r.state_dane_code.strictEq (.str "05"))).map
        (fun r => r.state) = some (.str "")
    ∧ statesHandler (loadStates (parseRecords blankNameRecords) (.content "cities.json"))
        = [.json { status_code := 200, message := "success",
                   data := [{ id := "05", state := .str "Antioquia" }] }] := by
  decide

/-- C4: for every dataset (a list of records with arbitrary field values) and
every `id`, `/cities/:id` responds with the records whose `state_dane_code` is the
string `id`, kept in dataset order and mapped to `{id: city_dane_code, city}`; and
for every record filed under a string code, the response for that code contains
the entry of the record. -/
theorem cities_data_filter_map (parse : String → Except JsError JsonDoc) (content : String)
    (records : List CityRecord) (stateId : String)
    (hload : parse content = .ok (.withData (records.map some))) :
    citiesHandler (loadStates parse (.content content)) stateId
      = [.json { status_code := 200, message := "success",
                 data := (records.filter (fun r => decide (r.state_dane_code = .str stateId))).map
                   (fun r => { id := r.city_dane_code, city := r.city }) }]
    ∧ ∀ r ∈ records, ∀ c, r.state_dane_code = .str c →
        ∃ body, citiesHandler (loadStates parse (.content content)) c = [.json body]
          ∧ ({ id := r.city_dane_code, city := r.city } : CitySummary) ∈ body.data := by
  have hl : loadStates parse (.content content) = .resolved (.withData (records.map some)) := by
    simp [loadStates, hload]
  rw [hl]
  refine ⟨?_, ?_⟩
  · rw [citiesHandler_records]
    rfl
  · intro r hr c hc
    refine ⟨_, citiesHandler_records records c, ?_⟩
    simp only [listCities, List.mem_map, List.mem_filter]
    exact ⟨r, ⟨hr, by simp [JsVal.strictEq, hc]⟩, rfl⟩

/-- The filter theorem of C4 applied to the scenario dataset and the id `05`. -/
theorem cities_data_filter_map_witness :
    citiesHandler (loadStates (parseRecords scenarioRecords) (.content "cities.json")) "05"
      = [.json { status_code := 200, message := "success",
                 data := [{ id := .str "05001", city := .str "Medellín" },
                          { id := .str "05002", city := .str "Abejorral" }] }] :=
  (cities_data_filter_map (parseRecords scenarioRecords) "cities.json" scenarioRecords "05"
    rfl).1

/-- C5: when the dataset loads and no record has `id` as its `state_dane_code`,
`/cities/:id` calls `res.json` once with status 200, message `success` and an
empty data array, and never calls `next`. -/
theorem cities_unknown_state_empty (parse : String → Except JsError JsonDoc) (content : String)
    (records : List CityRecord) (stateId : String)
    (hload : parse content = .ok (.withData (records.map some)))
    (habsent : ∀ r ∈ records, r.state_dane_code ≠ .str stateId) :
    citiesHandler (loadStates parse (.content content)) stateId
      = [.json { status_code := 200, message := "success", data := [] }]
    ∧ nextCalls (citiesHandler (loadStates parse (.content content)) stateId) = [] := by
  have hl : loadStates parse (.content content) = .resolved (.withData (records.map some)) := by
    simp [loadStates, hload]
  have hempty : listCities records stateId = [] := by
    simp only [listCities, List.map_eq_nil_iff, List.filter_eq_nil_iff]
    intro r hr
    simpa [JsVal.strictEq] using habsent r hr
  rw [hl, citiesHandler_records, hempty]
  exact ⟨rfl, rfl⟩

/-- The empty-result theorem of C5 applied to the scenario dataset and the id `99`. -/
theorem cities_unknown_state_empty_witness :
    citiesHandler (loadStates (parseRecords scenarioRecords) (.content "cities.json")) "99"
      = [.json { status_code := 200, message := "success", data := [] }]
    ∧ nextCalls
        (citiesHandler (loadStates (parseRecords scenarioRecords) (.content "cities.json")) "99")
        = [] :=
  cities_unknown_state_empty (parseRecords scenarioRecords) "cities.json" scenarioRecords "99"
    rfl (by decide)

/-- C6: when the dataset loads with a data array of well-formed records, each
handler makes exactly one call, `res.json`, with the three fields status_code 200,
message `success` and data the derived list; every `/states` entry is the code
and the name of some record, every `/cities/:id` entry the city of a record of
that state. -/
theorem success_envelope (parse : String → Except JsError JsonDoc) (content : String)
    (records : List CityRecord) (stateId : String)
    (hwf : WellFormed records)
    (hload : parse content = .ok (.withData (records.map some))) :
    statesHandler (loadStates parse (.content content))
      = [.json { status_code := 200, message := "success", data := listStates records }]
    ∧ citiesHandler (loadStates parse (.content content)) stateId
      = [.json { status_code := 200, message := "success", data := listCities records stateId }]
    ∧ (∀ e ∈ listStates records, ∃ r ∈ records, ∃ s,
        r.state_dane_code = .str e.id ∧ r.state = .str s ∧ e.state = .str s)
    ∧ (∀ e ∈ listCities records stateId, ∃ r ∈ records,
        r.state_dane_code = .str stateId ∧ e = { id := r.city_dane_code, city := r.city }) := by
  have hl : loadStates parse (.content content) = .resolved (.withData (records.map some)) := by
    simp [loadStates, hload]
  rw [hl]
  refine ⟨statesHandler_records records, citiesHandler_records records stateId, ?_, ?_⟩
  · intro e he
    obtain ⟨r, hr, hk, hv⟩ := listStates_entry records e he
    obtain ⟨c, s, hc, _, hs⟩ := wellFormed_fields r (hwf r hr)
    refine ⟨r, hr, s, ?_, hs, ?_⟩
    · rw [hc] at hk
      rw [hc, ← hk]
      rfl
    · rw [← hv, hs]
  · intro e he
    simp only [listCities, List.mem_map, List.mem_filter] at he
    obtain ⟨r, ⟨hr, hc⟩, rfl⟩ := he
    exact ⟨r, hr, by simpa [JsVal.strictEq] using hc, rfl⟩

/-- The envelope theorem of C6 applied to the scenario dataset. -/
theorem success_envelope_witness :
    statesHandler (loadStates (parseRecords scenarioRecords) (.content "cities.json"))
      = [.json { status_code := 200, message := "success",
                 data := [{ id := "05", state := .str "Antioquia" }] }]
    ∧ citiesHandler (loadStates (parseRecords scenarioRecords) (.content "cities.json")) "05"
      = [.json { status_code := 200, message := "success",
                 data := [{ id := .str "05001", city := .str "Medellín" },
                          { id := .str "05002", city := .str "Abejorral" }] }] :=
  ⟨(success_envelope (parseRecords scenarioRecords) "cities.json" scenarioRecords "05"
      (by decide) rfl).1,
   (success_envelope (parseRecords scenarioRecords) "cities.json" scenarioRecords "05"
      (by decide) rfl).2.1⟩

/-- C7 (the code at a failing input): when the file cannot be read, neither
handler calls `res.json` at all, so the documented bodies with status_code 500
and message `Error loading states` or `Error loading cities` are not sent; the
error goes to `next`. -/
theorem documented_error_envelope_not_sent :
    statesHandler (loadStates (parseRecords scenarioRecords) (.error (.ioError "ENOENT")))
      = [.consoleError "Error loading states:" (.ioError "ENOENT"), .next (.ioError "ENOENT")]
    ∧ jsonCalls
        (statesHandler (loadStates (parseRecords scenarioRecords) (.error (.ioError "ENOENT"))))
        = []
    ∧ citiesHandler (loadStates (parseRecords scenarioRecords) (.error (.ioError "ENOENT"))) "05"
      = [.next (.ioError "ENOENT")]
    ∧ jsonCalls
        (citiesHandler (loadStates (parseRecords scenarioRecords) (.error (.ioError "ENOENT")))
          "05")
        = [] := by
  decide

/-- C8 (the code at a failing input): when the content of the file is not JSON,
`JSON.parse` throws inside the `readFile` callback, so the promise of `loadStates`
is not rejected but left pending, and neither handler calls `next` (or anything). -/
theorem parse_error_not_forwarded :
    parseRecords scenarioRecords "not json" = .error (.syntaxError "Unexpected token")
    ∧ loadStates (parseRecords scenarioRecords) (.content "not json")
        = .uncaught (.syntaxError "Unexpected token")
    ∧ nextCalls (statesHandler (loadStates (parseRecords scenarioRecords) (.content "not json")))
        = []
    ∧ nextCalls
        (citiesHandler (loadStates (parseRecords scenarioRecords) (.content "not json")) "05")
        = [] :=
  ⟨rfl, rfl, rfl, rfl⟩

/-- C9: when `fs.readFile` reports `err`, the promise of `loadStates` is rejected
with `err`, and each handler calls `next` exactly once, with `err`, and never
calls `res.json`. -/
theorem read_error_forwarded (parse : String → Except JsError JsonDoc) (err : JsError)
    (stateId : String) :
    loadStates parse (.error err) = .rejected err
    ∧ statesHandler (loadStates parse (.error err))
        = [.consoleError "Error loading states:" err, .next err]
    ∧ nextCalls (statesHandler (loadStates parse (.error err))) = [err]
    ∧ jsonCalls (statesHandler (loadStates parse (.error err))) = []
    ∧ citiesHandler (loadStates parse (.error err)) stateId = [.next err]
    ∧ nextCalls (citiesHandler (loadStates parse (.error err)) stateId) = [err]
    ∧ jsonCalls (citiesHandler (loadStates parse (.error err)) stateId) = [] :=
  ⟨rfl, rfl, rfl, rfl, rfl, rfl, rfl⟩

/-- C10 (the code at a failing input): every record has a string
`state_dane_code`, the dataset has two records, and the city lists of the ids
returned by `/states` hold one record in all: the record filed under
`constructor` is reachable through no listed state. -/
theorem record_unreachable_through_states :
    StringCodes shadowedRecords
    ∧ shadowedRecords.length = 2
    ∧ ((listStates shadowedRecords).map
        (fun e => (listCities shadowedRecords e.id).length)).sum = 1 := by
  refine ⟨?_, by decide, by decide⟩
  intro r hr
  simp only [shadowedRecords, List.mem_cons, List.mem_singleton, List.not_mem_nil, or_false] at hr
  rcases hr with rfl | rfl <;> exact ⟨_, rfl⟩

end MocksData
